import Mathlib

/-!
Verification of the email discovery and validation pipeline of
`bandcamp_scraper.py` (repository Extra-Chill/homeboy-desktop).

The Python source is shallowly embedded: pure string functions become Lean
functions on `String`/`List Char`; the external collaborators (HTTP session,
`tldextract`, `urljoin`, the markup parser) are abstracted as explicit
function parameters, exactly at the call boundary the source uses them.
Machine details that the source relies on are modelled explicitly; in
particular Python regular expression semantics are reproduced for the two
patterns the source compiles (see the comments at each definition).

Unicode caveat: the source operates on Python `str`.  The character classes
of both regular expressions are explicit ASCII ranges, so they are modelled
exactly; `str.lower`, `str.strip` and the regex class `\s` additionally act
on some non-ASCII characters, which the model restricts to their ASCII
behaviour.  No statement below depends on non-ASCII input.
-/

/-! ### Character classes of the regular expressions in the source

`EMAIL_REGEX = ^[A-Za-z0-9._%+-]+@[A-Za-z0-9.-]+\.[A-Za-z]{2,}$` (line 80),
the unanchored copy of it used by `re.findall` (line 92), and the obfuscated
pattern `([A-Za-z0-9._%+-]+)\s?\[at\]\s?([A-Za-z0-9.-]+)\s?\[dot\]\s?([A-Za-z.]{2,})`
compiled with `re.I` (lines 93-97).  `re.I` only affects literal letters;
every character class here already contains both cases, so the classes are
case-exact. -/

/-- The class `[A-Za-z0-9._%+-]` (local part of an email). -/
def isLocalChar (c : Char) : Bool :=
  c.isAlpha || c.isDigit || c = '.' || c = '_' || c = '%' || c = '+' || c = '-'

/-- The class `[A-Za-z0-9.-]` (domain part of an email). -/
def isDomChar (c : Char) : Bool :=
  c.isAlpha || c.isDigit || c = '.' || c = '-'

/-- The class `[A-Za-z]` (TLD of an email). -/
def isTldChar (c : Char) : Bool := c.isAlpha

/-- The class `[A-Za-z.]` (third group of the obfuscated pattern). -/
def isObfusTldChar (c : Char) : Bool := c.isAlpha || c = '.'

/-- The regex class `\s`, restricted to its ASCII members
(space, tab, newline, carriage return, vertical tab, form feed). -/
def isPySpace (c : Char) : Bool :=
  c = ' ' || c = '\t' || c = '\n' || c = '\r' || c = '\x0b' || c = '\x0c'

/-! ### Anchored matching of EMAIL_REGEX

`re.match` anchors at the start; the final `$` of the pattern accepts either
the end of the string or a position just before one final newline (Python
`$` semantics without `re.M`).  Because `@` belongs to none of the three
character classes, backtracking can only ever bind the local part to the
maximal run of local characters, and the literal dot of the pattern to the
last dot that is followed by at least two ASCII letters reaching the end of
the string; the executable matcher below exploits this. -/

/-- Matches `[A-Za-z0-9.-]+\.[A-Za-z]{2,}` against the whole list `l`:
all of `l` lies in the domain class, and reading from the right there is a
maximal all-letters run of length at least 2, preceded by a dot, preceded by
a nonempty remainder. -/
def domMatchAnchored (l : List Char) : Bool :=
  l.all isDomChar &&
    (decide (2 ≤ (l.reverse.takeWhile isTldChar).length) &&
     decide ((l.reverse.dropWhile isTldChar).head? = some '.') &&
     decide ((l.reverse.dropWhile isTldChar).tail ≠ []))

/-- Matches the full pattern `[A-Za-z0-9._%+-]+@[A-Za-z0-9.-]+\.[A-Za-z]{2,}`
against the whole list `l`. -/
def emailCoreMatch (l : List Char) : Bool :=
  match l.dropWhile isLocalChar with
  | '@' :: rest => !(l.takeWhile isLocalChar).isEmpty && domMatchAnchored rest
  | _ => false

/-- `re.match(EMAIL_REGEX, s) is not None`: the core pattern matches the
whole string, or the whole string minus one final newline (the `$` of the
pattern also matches just before a trailing newline). -/
def pyDollarMatch (l : List Char) : Bool :=
  emailCoreMatch l ||
    (decide (l.getLast? = some '\n') && emailCoreMatch l.dropLast)

/-- `is_valid_email` (source lines 83-87): rejects the empty string and
strings longer than 254 characters, otherwise defers to EMAIL_REGEX. -/
def is_valid_email (email : String) : Bool :=
  if email.length = 0 || 254 < email.length then false
  else pyDollarMatch email.data

/-- Modelled from the spec (section 4.1), for comparison with the source:
the address decomposes, over the whole string with nothing left over, into a
nonempty local part over `[A-Za-z0-9._%+-]`, an `@`, a nonempty domain over
`[A-Za-z0-9.-]`, a dot, and an ASCII alphabetic TLD of length at least 2. -/
def spec_canonical_match (s : String) : Prop :=
  ∃ loc dom tld : List Char,
    s.data = loc ++ '@' :: (dom ++ '.' :: tld) ∧
    loc ≠ [] ∧ (∀ c ∈ loc, isLocalChar c = true) ∧
    dom ≠ [] ∧ (∀ c ∈ dom, isDomChar c = true) ∧
    2 ≤ tld.length ∧ (∀ c ∈ tld, isTldChar c = true)

/-! ### re.findall over the two extraction patterns (source lines 90-101)

`re.findall` scans left to right; at each position it attempts a match, and
after a successful (necessarily nonempty) match resumes at its end,
otherwise advances one character.  For both patterns here every greedy
sub-expression is rigid: the character that must follow each greedy class
run (`@`, `[`, whitespace, end of pattern) never belongs to the class, so
backtracking can never shorten a run, and each `\s?` consumes a whitespace
character exactly when one is present. -/

/-- Greedy split of the maximal domain-class run `D` for the unanchored
pattern `[A-Za-z0-9.-]+\.[A-Za-z]{2,}`: the engine consumes the run
greedily and backtracks from the right, so the match uses the largest index
`c` (at least 1) with a dot at `c` followed by a maximal letter run of
length at least 2.  Returns that index and the letter run. -/
def domSplitGreedy (D : List Char) : Option (Nat × List Char) :=
  (((List.range D.length).filter fun c =>
      decide (1 ≤ c) && decide ((D.drop c).head? = some '.') &&
        decide (2 ≤ ((D.drop (c + 1)).takeWhile isTldChar).length)).getLast?).map
    fun c => (c, (D.drop (c + 1)).takeWhile isTldChar)

/-- Attempt of the unanchored email pattern at the head of `l`; on success
returns the matched characters and the remainder of `l` after the match. -/
def tryMatchNormal (l : List Char) : Option (List Char × List Char) :=
  match l.dropWhile isLocalChar with
  | '@' :: rest =>
    if (l.takeWhile isLocalChar).isEmpty then none
    else
      let D := rest.takeWhile isDomChar
      match domSplitGreedy D with
      | some (c, tl) =>
        some (l.takeWhile isLocalChar ++ '@' :: (D.take c ++ '.' :: tl),
              rest.drop (c + 1 + tl.length))
      | none => none
  | _ => none

/-- `re.findall` of the unanchored email pattern.  A successful match always
consumes at least one character and the remainder is a suffix of the input,
so resuming at the end of the match is dropping the consumed prefix; `max`
with 1 and the structural fuel (initially the input length, consumed
strictly slower than the list) keep the recursion structural without
changing the scan. -/
def find_all_normal_aux : Nat → List Char → List String
  | _, [] => []
  | 0, _ :: _ => []
  | fuel + 1, c :: cs =>
    match tryMatchNormal (c :: cs) with
    | some (m, rem) =>
      String.mk m ::
        find_all_normal_aux fuel ((c :: cs).drop (max ((c :: cs).length - rem.length) 1))
    | none => find_all_normal_aux fuel cs

def find_all_normal (l : List Char) : List String := find_all_normal_aux l.length l

/-- One `\s?` step: consume one whitespace character when present.  The
character after each `\s?` of the obfuscated pattern (`[` or a class
character) is never whitespace, so the zero-width alternative applies
exactly when the head is not whitespace. -/
def skipWs1 : List Char → List Char
  | c :: r => if isPySpace c then r else c :: r
  | [] => []

/-- The literal `\[at\]` under `re.I`. -/
def matchAtTok : List Char → Option (List Char)
  | b1 :: a :: t :: b2 :: r =>
    if b1 = '[' ∧ b2 = ']' ∧ a.toLower = 'a' ∧ t.toLower = 't' then some r else none
  | _ => none

/-- The literal `\[dot\]` under `re.I`. -/
def matchDotTok : List Char → Option (List Char)
  | b1 :: d :: o :: t :: b2 :: r =>
    if b1 = '[' ∧ b2 = ']' ∧ d.toLower = 'd' ∧ o.toLower = 'o' ∧ t.toLower = 't'
    then some r else none
  | _ => none

/-- Attempt of the obfuscated pattern
`([A-Za-z0-9._%+-]+)\s?\[at\]\s?([A-Za-z0-9.-]+)\s?\[dot\]\s?([A-Za-z.]{2,})`
at the head of `l`; on success returns the three groups and the remainder. -/
def tryMatchObfus (l : List Char) :
    Option ((List Char × List Char × List Char) × List Char) :=
  if (l.takeWhile isLocalChar).isEmpty then none
  else
    match matchAtTok (skipWs1 (l.dropWhile isLocalChar)) with
    | none => none
    | some r3 =>
      if ((skipWs1 r3).takeWhile isDomChar).isEmpty then none
      else
        match matchDotTok (skipWs1 ((skipWs1 r3).dropWhile isDomChar)) with
        | none => none
        | some r7 =>
          if ((skipWs1 r7).takeWhile isObfusTldChar).length < 2 then none
          else
            some ((l.takeWhile isLocalChar, (skipWs1 r3).takeWhile isDomChar,
                   (skipWs1 r7).takeWhile isObfusTldChar),
                  (skipWs1 r7).dropWhile isObfusTldChar)

/-- `re.findall` of the obfuscated pattern, returning the group tuples;
same structural-fuel scheme as `find_all_normal_aux`. -/
def find_all_obfus_aux : Nat → List Char → List (List Char × List Char × List Char)
  | _, [] => []
  | 0, _ :: _ => []
  | fuel + 1, c :: cs =>
    match tryMatchObfus (c :: cs) with
    | some (g, rem) =>
      g :: find_all_obfus_aux fuel ((c :: cs).drop (max ((c :: cs).length - rem.length) 1))
    | none => find_all_obfus_aux fuel cs

def find_all_obfus (l : List Char) : List (List Char × List Char × List Char) :=
  find_all_obfus_aux l.length l

/-- `extract_emails` (source lines 90-101): plain matches, de-obfuscated
matches, duplicates removed (the source builds a Python set, whose iteration
order is arbitrary; the model keeps one canonical order), then strict
validation. -/
def extract_emails (text : String) : List String :=
  let normal := find_all_normal text.data
  let deobfus := (find_all_obfus text.data).map fun g =>
    String.mk g.1 ++ "@" ++ String.mk g.2.1 ++ "." ++ String.mk g.2.2
  let all_emails := (normal ++ deobfus).dedup
  all_emails.filter fun e => is_valid_email e

/-! ### Python string primitives

The remaining source code uses `str.lower`, `str.startswith`, `in`,
`str.strip`, slicing, and `split`.  Python strings are sequences of code
points, which is exactly `String.data` in Lean, so these operations are
modelled directly on the character list (the byte-position based routines
of core `String` compute the same values on valid strings). -/

/-- `s.lower()` (ASCII case mapping, see the header note). -/
def py_lower (s : String) : String := String.mk (s.data.map Char.toLower)

/-- `s.startswith(pre)`. -/
def py_startswith (s pre : String) : Bool := pre.data.isPrefixOf s.data

/-- Substring occurrence on character lists: some suffix starts with the
needle. -/
def list_has_sub (needle : List Char) : List Char → Bool
  | [] => needle.isEmpty
  | h :: t => needle.isPrefixOf (h :: t) || list_has_sub needle t

/-- `needle in s` for strings. -/
def py_substr_in (needle s : String) : Bool := list_has_sub needle.data s.data

/-- `s.strip()` (whitespace from both ends, ASCII members). -/
def py_strip (s : String) : String :=
  String.mk (((s.data.dropWhile isPySpace).reverse.dropWhile isPySpace).reverse)

/-- `s[:n]`. -/
def py_take (s : String) (n : Nat) : String := String.mk (s.data.take n)

/-- `s[n:]`. -/
def py_drop (s : String) (n : Nat) : String := String.mk (s.data.drop n)

/-- `s.split("?")[0]`: everything before the first question mark. -/
def py_split_q_head (s : String) : String :=
  String.mk (s.data.takeWhile fun c => c ≠ '?')

/-- `s.split('@')[-1]`: everything after the last `@` (the whole string
when there is none). -/
def py_domain_after_at (s : String) : String :=
  String.mk ((s.data.reverse.takeWhile fun c => c ≠ '@').reverse)

/-- `c in s` for a single character. -/
def py_char_in (c : Char) (s : String) : Bool := s.data.contains c

/-- Truthiness of a Python string: nonempty. -/
def py_truthy (s : String) : Bool := !s.data.isEmpty

/-! ### Link harvesting and the Domain Trust Filter (source lines 42-71, 104-137)

`tldextract.extract(x).top_domain_under_public_suffix` is an external
collaborator (public-suffix data); it is modelled as an abstract total
function `rd : String → String`, with the empty string standing both for an
empty extraction result (falsy in Python) and for a raised exception, since
every call site treats the two identically (the bare call at line 125
cannot observe the difference either, because `tldextract` does not raise
on string input).  `urljoin` is likewise abstracted. -/

/-- A parsed hyperlink that carries an `href` attribute
(`soup.find_all("a", href=True)`): its href and its stripped visible text. -/
structure Anchor where
  href : String
  text : String
deriving DecidableEq, Repr

/-- `extract_mailto_emails` (source lines 104-114): for every anchor whose
href starts case-insensitively with `mailto:`, strip the 7-character prefix
from the original href, cut at the first `?`, trim whitespace, keep it when
valid; finally deduplicate (`list(set(...))`, with one canonical order). -/
def extract_mailto_emails (anchors : List Anchor) : List String :=
  (anchors.filterMap fun a =>
    if py_startswith (py_lower a.href) "mailto:" then
      if is_valid_email (py_strip (py_split_q_head (py_drop a.href 7))) then
        some (py_strip (py_split_q_head (py_drop a.href 7)))
      else none
    else none).dedup

/-- `PUBLIC_EMAIL_DOMAINS` (source lines 42-57); only membership is used. -/
def PUBLIC_EMAIL_DOMAINS : List String :=
  ["gmail.com", "googlemail.com",
   "outlook.com", "hotmail.com", "live.com", "msn.com",
   "icloud.com", "me.com", "mac.com",
   "yahoo.com", "ymail.com", "rocketmail.com",
   "protonmail.com", "proton.me", "tutanota.com", "tutamail.com",
   "aol.com", "mail.com", "zoho.com", "fastmail.com", "hey.com",
   "riseup.net", "disroot.org"]

/-- `EXCLUDED_DOMAINS` (source lines 59-71); only membership is used. -/
def EXCLUDED_DOMAINS : List String :=
  ["instagram.com", "facebook.com", "twitter.com", "x.com",
   "youtube.com", "tiktok.com", "soundcloud.com", "twitch.tv",
   "reverbnation.com", "spotify.com", "tumblr.com", "bandcamp.com",
   "bsky.app", "vk.com", "genius.com", "mixcloud.com", "discogs.com",
   "redbubble.com", "bigcartel.com", "storenvy.com", "limitedrun.com",
   "patreon.com", "linktr.ee", "bio.link", "beacons.ai",
   "play.google.com", "apps.apple.com", "itunes.apple.com"]

/-- The registered domain of an email as the filter computes it (source
lines 124-125): lowercase everything after the last `@`, extract through
`rd`, and fall back to the lowercased domain when extraction is falsy
(`extracted or email_domain`). -/
def email_reg_domain (rd : String → String) (email : String) : String :=
  if py_truthy (rd (py_lower (py_domain_after_at email)))
  then rd (py_lower (py_domain_after_at email))
  else py_lower (py_domain_after_at email)

/-- The keep criterion of the Domain Trust Filter (source lines 127-129):
same registered domain as the truthy reference site, compared after
lowercasing the reference, or a public email provider. -/
def keep_email (rd : String → String) (website_domain email : String) : Bool :=
  (py_truthy website_domain &&
     decide (email_reg_domain rd email = py_lower website_domain)) ||
    PUBLIC_EMAIL_DOMAINS.contains (email_reg_domain rd email)

/-- `filter_emails_by_domain` (source lines 117-137) including its
diagnostic side channel: first component the kept emails, second component
the skipped emails that the source logs as a domain mismatch. -/
def filter_emails_full (rd : String → String) (emails : List String)
    (website_domain : String) : List String × List String :=
  match emails with
  | [] => ([], [])
  | email :: rest =>
    let r := filter_emails_full rd rest website_domain
    if !(py_char_in '@' email) then r
    else
      if py_truthy website_domain &&
          decide (email_reg_domain rd email = py_lower website_domain) then
        (email :: r.1, r.2)
      else if PUBLIC_EMAIL_DOMAINS.contains (email_reg_domain rd email) then
        (email :: r.1, r.2)
      else (r.1, email :: r.2)

/-- The return value of `filter_emails_by_domain`. -/
def filter_emails_by_domain (rd : String → String) (emails : List String)
    (website_domain : String) : List String :=
  (filter_emails_full rd emails website_domain).1

/-- The abstract registered-domain extractor instantiated as the identity,
which is what `tldextract` returns on an already-registered domain. -/
def rdFlat : String → String := fun d => d

/-! ### Pages, fetch outcomes and log lines (source lines 213-397)

The HTTP session and the markup parser are external collaborators.
Fetching an album page either raises (`none`) or yields a status code plus
the parsed content the source reads from the page; fetching an external or
contact page yields parsed content or `none`, the latter covering both a
raised exception and a 4xx/5xx status, which `raise_for_status` converts to
an exception on this path without the code distinguishing the two.  The log
lines the source accumulates are modelled as constructors carrying the
interpolated data. -/

/-- The parsed album page: the texts of the selectors the source queries
(with `get_text` stripping already applied by the parser collaborator), all
anchors carrying an href, and the hrefs under `#band-links a`. -/
structure AlbumPage where
  nameEl : Option String
  bioTextEl : Option String
  peekabooEl : Option String
  truncatedEl : Option String
  anchors : List Anchor
  bandLinks : List String
deriving DecidableEq, Repr

/-- An external or contact page: visible text after removing
script/style/noscript subtrees, the anchors with hrefs, and the final
post-redirect URL (`r.url`). -/
structure SitePage where
  text : String
  anchors : List Anchor
  finalUrl : String
deriving DecidableEq, Repr

/-- The diagnostic lines the resolvers append, one constructor per format
string of the source. -/
inductive LogEntry where
  | scrapingAlbum (url : String)
  | rateLimitedBackoff
  | albumRequestFailed
  | foundBioEmails (emails : List String)
  | foundMailtoEmails (emails : List String)
  | noEmailChecking
  | foundExternalLink (url : String)
  | visitingExternal (url : String)
  | siteRequestFailed
  | foundSiteTextEmails (emails : List String)
  | foundSiteMailtoEmails (emails : List String)
  | checkingContactPage
  | foundContactPage (url : String)
  | foundContactTextEmails (emails : List String)
  | foundContactMailtoEmails (emails : List String)
deriving DecidableEq, Repr

/-- The tuple `scrape_album_page` returns (source line 213):
`(emails, ext_url, artist_name, bio_text.strip(), logs, rate_limited)`. -/
structure AlbumScrape where
  emails : List String
  ext_url : String
  artist_name : String
  bio_stripped : String
  logs : List LogEntry
  rate_limited : Bool
deriving DecidableEq, Repr

/-- One step of the bio accumulation loop (source lines 236-239):
`bio_text += " " + el.get_text(" ", strip=True)` when the selector hit. -/
def bio_sel_fold (acc : String) (o : Option String) : String :=
  match o with
  | some t => acc ++ " " ++ t
  | none => acc

/-- The concatenated biography text of an album page. -/
def bio_text_of (pg : AlbumPage) : String :=
  bio_sel_fold (bio_sel_fold (bio_sel_fold "" pg.bioTextEl) pg.peekabooEl) pg.truncatedEl

/-- The `#band-links` scan (source lines 256-269): first href that starts
with `http` whose registered domain is truthy and not excluded; `""` when
none qualifies.  A raised extraction and a falsy extraction both skip the
candidate, so the abstract `rd` covers both. -/
def find_external_link (rd : String → String) (links : List String) : String :=
  match links.find? (fun href => py_startswith href "http" &&
      (py_truthy (rd href) && !(EXCLUDED_DOMAINS.contains (rd href)))) with
  | some href => href
  | none => ""

/-- `scrape_album_page` (source lines 213-271). -/
def scrape_album_page (rd : String → String)
    (fetchAlbum : String → Option (Nat × AlbumPage)) (url : String) : AlbumScrape :=
  match fetchAlbum url with
  | none => ⟨[], "", "", "", [.scrapingAlbum url, .albumRequestFailed], false⟩
  | some (st, pg) =>
    if st = 429 then
      ⟨[], "", "", "", [.scrapingAlbum url, .rateLimitedBackoff], true⟩
    else if 400 ≤ st ∧ st < 600 then
      ⟨[], "", "", "", [.scrapingAlbum url, .albumRequestFailed], false⟩
    else
      if extract_emails (bio_text_of pg) ≠ [] then
        ⟨extract_emails (bio_text_of pg), "", pg.nameEl.getD "",
         py_strip (bio_text_of pg),
         [.scrapingAlbum url, .foundBioEmails (extract_emails (bio_text_of pg))], false⟩
      else if extract_mailto_emails pg.anchors ≠ [] then
        ⟨extract_mailto_emails pg.anchors, "", pg.nameEl.getD "",
         py_strip (bio_text_of pg),
         [.scrapingAlbum url, .foundMailtoEmails (extract_mailto_emails pg.anchors)], false⟩
      else
        ⟨[], find_external_link rd pg.bandLinks, pg.nameEl.getD "",
         py_strip (bio_text_of pg),
         [.scrapingAlbum url, .noEmailChecking] ++
           (if py_truthy (find_external_link rd pg.bandLinks) then
             [.foundExternalLink (find_external_link rd pg.bandLinks)] else []), false⟩

/-- The contact-page loop of `scrape_external_site` (source lines 315-352).
An anchor qualifies when `contact` occurs in its lowercased text or href;
a qualifying candidate that does not join to an `http` URL is skipped
(`continue` before the log line); the candidate page is fetched after
logging it, and a raised fetch or parse hits `except: continue`, resuming
the scan with the next anchor; a fetched page ends the scan: its filtered
text emails, else its filtered mailto emails, else empty (`break`). -/
def contact_scan (rd : String → String) (uj : String → String → String)
    (fetchSite : String → Option SitePage) (wd : String) (baseUrl : String) :
    List Anchor → List String × List LogEntry
  | [] => ([], [])
  | a :: rest =>
    if py_substr_in "contact" (py_lower a.text) ||
        py_substr_in "contact" (py_lower a.href) then
      if !(py_startswith (uj baseUrl a.href) "http") then
        contact_scan rd uj fetchSite wd baseUrl rest
      else
        match fetchSite (uj baseUrl a.href) with
        | none =>
          let r := contact_scan rd uj fetchSite wd baseUrl rest
          (r.1, .foundContactPage (uj baseUrl a.href) :: r.2)
        | some cp =>
          if (if extract_emails cp.text ≠ [] then
                filter_emails_by_domain rd (extract_emails cp.text) wd else []) ≠ [] then
            (filter_emails_by_domain rd (extract_emails cp.text) wd,
             [.foundContactPage (uj baseUrl a.href),
              .foundContactTextEmails (filter_emails_by_domain rd (extract_emails cp.text) wd)])
          else if (if extract_mailto_emails cp.anchors ≠ [] then
                filter_emails_by_domain rd (extract_mailto_emails cp.anchors) wd else []) ≠ [] then
            (filter_emails_by_domain rd (extract_mailto_emails cp.anchors) wd,
             [.foundContactPage (uj baseUrl a.href),
              .foundContactMailtoEmails
                (filter_emails_by_domain rd (extract_mailto_emails cp.anchors) wd)])
          else ([], [.foundContactPage (uj baseUrl a.href)])
    else contact_scan rd uj fetchSite wd baseUrl rest

/-- `scrape_external_site` (source lines 274-353); the second component is
the log lines it appends to the caller.  The reference domain is `rd url`
throughout: a raised or falsy extraction gives `""`, which is not in the
excluded set, exactly as in the source. -/
def scrape_external_site (rd : String → String) (uj : String → String → String)
    (fetchSite : String → Option SitePage) (url : String) :
    List String × List LogEntry :=
  if EXCLUDED_DOMAINS.contains (rd url) then ([], [.visitingExternal url])
  else
    match fetchSite url with
    | none => ([], [.visitingExternal url, .siteRequestFailed])
    | some page =>
      if (if extract_emails page.text ≠ [] then
            filter_emails_by_domain rd (extract_emails page.text) (rd url) else []) ≠ [] then
        (filter_emails_by_domain rd (extract_emails page.text) (rd url),
         [.visitingExternal url,
          .foundSiteTextEmails (filter_emails_by_domain rd (extract_emails page.text) (rd url))])
      else if (if extract_mailto_emails page.anchors ≠ [] then
            filter_emails_by_domain rd (extract_mailto_emails page.anchors) (rd url)
          else []) ≠ [] then
        (filter_emails_by_domain rd (extract_mailto_emails page.anchors) (rd url),
         [.visitingExternal url,
          .foundSiteMailtoEmails
            (filter_emails_by_domain rd (extract_mailto_emails page.anchors) (rd url))])
      else
        ((contact_scan rd uj fetchSite (rd url) page.finalUrl page.anchors).1,
         [.visitingExternal url, .checkingContactPage] ++
           (contact_scan rd uj fetchSite (rd url) page.finalUrl page.anchors).2)

/-- A discovered contact (source lines 376-381). -/
structure ContactRecord where
  email : String
  name : String
  notes : String
  source_url : String
deriving DecidableEq, Repr

/-- The per-task result dict of `process_album` (source lines 358-363),
plus `sleepMs`, which instruments the two `time.sleep` calls (5 s rate
limit backoff at line 371, 0.3 s pacing at line 392).  Every modelled
collaborator failure is already a value (`none` outcomes), so the catch-all
handler at line 394 is unreachable in the model and `error` is `none` on
every path, matching the source where no modelled operation raises. -/
structure TaskResult where
  emails : List ContactRecord
  logs : List LogEntry
  error : Option String
  rate_limited : Bool
  sleepMs : Nat
deriving DecidableEq, Repr

/-- `process_album` (source lines 356-397). -/
def process_album (rd : String → String) (uj : String → String → String)
    (fetchAlbum : String → Option (Nat × AlbumPage))
    (fetchSite : String → Option SitePage) (album_url : String) : TaskResult :=
  let s := scrape_album_page rd fetchAlbum album_url
  if s.rate_limited then
    { emails := [], logs := s.logs, error := none, rate_limited := true, sleepMs := 5000 }
  else if s.emails ≠ [] then
    { emails := s.emails.map fun email =>
        { email := email, name := s.artist_name,
          notes := if py_truthy s.bio_stripped then py_take s.bio_stripped 500 else "",
          source_url := album_url },
      logs := s.logs, error := none, rate_limited := false, sleepMs := 300 }
  else if py_truthy s.ext_url then
    { emails := (scrape_external_site rd uj fetchSite s.ext_url).1.map fun email =>
        { email := email, name := s.artist_name,
          notes := if py_truthy s.bio_stripped then py_take s.bio_stripped 500 else "",
          source_url := album_url },
      logs := s.logs ++ (scrape_external_site rd uj fetchSite s.ext_url).2,
      error := none, rate_limited := false, sleepMs := 300 }
  else
    { emails := [], logs := s.logs, error := none, rate_limited := false, sleepMs := 300 }

/-- The final deduplication pass of `main` (source lines 454-460); the
`seen` set is modelled as a list used only through membership. -/
def dedupe_by_email : List ContactRecord → List String → List ContactRecord
  | [], _ => []
  | r :: rest, seen =>
    if r.email ∈ seen then dedupe_by_email rest seen
    else r :: dedupe_by_email rest (r.email :: seen)

/-- The contacts `main` emits: per-task email lists concatenated in
completion order (the argument order stands for the order in which
`as_completed` yields the futures), then deduplicated by email. -/
def main_contacts (tasks : List TaskResult) : List ContactRecord :=
  dedupe_by_email ((tasks.map TaskResult.emails).flatten) []

/-- The batch-level error strings `main` collects (source lines 451-452). -/
def main_errors (tasks : List TaskResult) : List String :=
  tasks.filterMap TaskResult.error

/-! ### Concrete environments used by the witnesses -/

/-- urljoin instantiated for relative paths against a bare site root. -/
def ujCat : String → String → String := fun b r => b ++ r

/-- An album page with no content. -/
def pgEmpty : AlbumPage := ⟨none, none, none, none, [], []⟩

/-- A fetch that is always rate limited. -/
def fa429 : String → Option (Nat × AlbumPage) := fun _ => some (429, pgEmpty)

/-- A site fetch that always fails. -/
def fsNone : String → Option SitePage := fun _ => none

/-- An album page whose biography carries an email, plus a mailto link and
a band link that must not be consulted. -/
def pgBio : AlbumPage :=
  { nameEl := some "The Band", bioTextEl := some "reach us a@b.co",
    peekabooEl := none, truncatedEl := none,
    anchors := [⟨"mailto:other@c.co", "m"⟩], bandLinks := ["http://x.org"] }

/-- Serves `pgBio` with status 200 for one album URL. -/
def faBio : String → Option (Nat × AlbumPage) := fun u =>
  if u = "albumB" then some (200, pgBio) else none

/-- An external site with no on-page email and two contact links. -/
def sitePageTwoContacts : SitePage :=
  { text := "welcome", anchors := [⟨"/contact1", "Contact"⟩, ⟨"/contact2", "Contact"⟩],
    finalUrl := "http://site.com" }

/-- The second contact page, carrying a same-domain email. -/
def contactPage2 : SitePage :=
  { text := "write info@site.com", anchors := [], finalUrl := "http://site.com/contact2" }

/-- Registered-domain extraction for the two-contact-page scenario. -/
def rdSite : String → String := fun s =>
  if s = "http://site.com" then "site.com"
  else if s = "site.com" then "site.com"
  else ""

/-- Site fetches for the scenario: the main page parses, the first contact
page fetch raises, the second succeeds. -/
def fsTwo : String → Option SitePage := fun u =>
  if u = "http://site.com" then some sitePageTwoContacts
  else if u = "http://site.com/contact2" then some contactPage2
  else none

/-- Two completed tasks that discovered the same email from different
source URLs. -/
def c9task1 : TaskResult :=
  { emails := [{ email := "same@band.com", name := "A", notes := "", source_url := "url1" }],
    logs := [], error := none, rate_limited := false, sleepMs := 300 }

def c9task2 : TaskResult :=
  { emails := [{ email := "same@band.com", name := "B", notes := "", source_url := "url2" }],
    logs := [], error := none, rate_limited := false, sleepMs := 300 }


/-! ### takeWhile and dropWhile boundary lemmas -/

theorem takeWhile_all_eq {p : Char → Bool} :
    ∀ {xs : List Char}, (∀ a ∈ xs, p a = true) → xs.takeWhile p = xs := by
  intro xs
  induction xs with
  | nil => intro _; rfl
  | cons x xs ih =>
    intro h
    simp only [List.takeWhile_cons, h x (by simp)]
    simp [ih fun a ha => h a (by simp [ha])]

theorem takeWhile_append_cons {p : Char → Bool} {xs ys : List Char} {y : Char}
    (hxs : ∀ a ∈ xs, p a = true) (hy : p y = false) :
    (xs ++ y :: ys).takeWhile p = xs := by
  induction xs with
  | nil => simp [List.takeWhile_cons, hy]
  | cons x xs ih =>
    simp only [List.cons_append, List.takeWhile_cons, hxs x (by simp)]
    simp [ih fun a ha => hxs a (by simp [ha])]

theorem dropWhile_append_cons {p : Char → Bool} {xs ys : List Char} {y : Char}
    (hxs : ∀ a ∈ xs, p a = true) (hy : p y = false) :
    (xs ++ y :: ys).dropWhile p = y :: ys := by
  induction xs with
  | nil => simp [List.dropWhile_cons, hy]
  | cons x xs ih =>
    simp only [List.cons_append, List.dropWhile_cons, hxs x (by simp)]
    simp [ih fun a ha => hxs a (by simp [ha])]

theorem dropWhile_all_eq_nil {p : Char → Bool} :
    ∀ {xs : List Char}, (∀ a ∈ xs, p a = true) → xs.dropWhile p = [] := by
  intro xs
  induction xs with
  | nil => intro _; rfl
  | cons x xs ih =>
    intro h
    simp only [List.dropWhile_cons, h x (by simp)]
    simp [ih fun a ha => h a (by simp [ha])]

theorem mem_of_mem_dropWhile {p : Char → Bool} {l : List Char} {c : Char}
    (h : c ∈ l.dropWhile p) : c ∈ l := by
  have he : l.takeWhile p ++ l.dropWhile p = l := List.takeWhile_append_dropWhile p l
  rw [← he]
  exact List.mem_append_right _ h

/-- A successful `domMatchAnchored` yields the decomposition the pattern
`[A-Za-z0-9.-]+\.[A-Za-z]{2,}` describes. -/
theorem domMatchAnchored_decomp {rest : List Char} (h : domMatchAnchored rest = true) :
    ∃ dom tld : List Char, rest = dom ++ '.' :: tld ∧ dom ≠ [] ∧
      (∀ c ∈ dom, isDomChar c = true) ∧ 2 ≤ tld.length ∧
      (∀ c ∈ tld, isTldChar c = true) := by
  unfold domMatchAnchored at h
  simp only [Bool.and_eq_true, decide_eq_true_eq, List.all_eq_true] at h
  obtain ⟨hall, ⟨htld, hhead⟩, htail⟩ := h
  cases hw : rest.reverse.dropWhile isTldChar with
  | nil => rw [hw] at hhead; simp at hhead
  | cons a d =>
    rw [hw] at hhead htail
    simp only [List.head?_cons, Option.some.injEq] at hhead
    subst hhead
    simp only [List.tail_cons] at htail
    have hre : rest.reverse.takeWhile isTldChar ++ ('.' :: d) = rest.reverse := by
      rw [← hw]; exact List.takeWhile_append_dropWhile isTldChar rest.reverse
    have hrest : rest = d.reverse ++ '.' :: (rest.reverse.takeWhile isTldChar).reverse := by
      have h2 := congrArg List.reverse hre
      simp only [List.reverse_append, List.reverse_cons, List.reverse_reverse,
        List.append_assoc, List.singleton_append] at h2
      exact h2.symm
    refine ⟨d.reverse, (rest.reverse.takeWhile isTldChar).reverse, hrest, ?_, ?_, ?_, ?_⟩
    · simpa using htail
    · intro c hc
      simp only [List.mem_reverse] at hc
      have hc2 : c ∈ rest.reverse.dropWhile isTldChar := by
        rw [hw]; exact List.mem_cons_of_mem _ hc
      have hc3 : c ∈ rest := List.mem_reverse.mp (mem_of_mem_dropWhile hc2)
      exact hall c hc3
    · simpa using htld
    · intro c hc
      simp only [List.mem_reverse] at hc
      exact List.mem_takeWhile_imp hc

/-- The executable anchored matcher agrees with the declarative reading of
the canonical pattern. -/
theorem emailCoreMatch_iff_spec (s : String) :
    emailCoreMatch s.data = true ↔ spec_canonical_match s := by
  constructor
  · intro h
    unfold emailCoreMatch at h
    split at h
    case h_2 => exact absurd h (by simp)
    case h_1 rest heq =>
      simp only [Bool.and_eq_true] at h
      obtain ⟨hne, hdom⟩ := h
      obtain ⟨dom, tld, hrest, hdomne, hdomc, htldlen, htldc⟩ := domMatchAnchored_decomp hdom
      refine ⟨s.data.takeWhile isLocalChar, dom, tld, ?_, ?_, ?_, hdomne, hdomc, htldlen, htldc⟩
      · have hsd : s.data = s.data.takeWhile isLocalChar ++ '@' :: rest := by
          conv_lhs => rw [← List.takeWhile_append_dropWhile isLocalChar s.data]
          rw [heq]
        rw [hrest] at hsd
        exact hsd
      · intro hnil
        rw [hnil] at hne
        simp at hne
      · exact fun c hc => List.mem_takeWhile_imp hc
  · rintro ⟨loc, dom, tld, hsd, hlocne, hloc, hdomne, hdom, htldlen, htld⟩
    have hAtNotLocal : isLocalChar '@' = false := by decide
    have hdw : s.data.dropWhile isLocalChar = '@' :: (dom ++ '.' :: tld) := by
      rw [hsd]; exact dropWhile_append_cons hloc hAtNotLocal
    have htw : s.data.takeWhile isLocalChar = loc := by
      rw [hsd]; exact takeWhile_append_cons hloc hAtNotLocal
    unfold emailCoreMatch
    rw [hdw]
    simp only [htw, Bool.and_eq_true]
    constructor
    · cases loc with
      | nil => exact absurd rfl hlocne
      | cons a l => simp
    · unfold domMatchAnchored
      have hrev : (dom ++ '.' :: tld).reverse = tld.reverse ++ '.' :: dom.reverse := by
        simp
      have hDotNotTld : isTldChar '.' = false := by decide
      have htldrev : ∀ a ∈ tld.reverse, isTldChar a = true := by
        intro a ha; exact htld a (List.mem_reverse.mp ha)
      rw [hrev, takeWhile_append_cons htldrev hDotNotTld,
          dropWhile_append_cons htldrev hDotNotTld]
      simp only [Bool.and_eq_true, List.all_eq_true, decide_eq_true_eq, List.head?_cons,
        List.tail_cons]
      refine ⟨?_, ⟨?_, trivial⟩, ?_⟩
      · intro c hc
        rcases List.mem_append.mp hc with h | h
        · exact hdom c h
        · rcases List.mem_cons.mp h with h | h
          · subst h; decide
          · have := htld c h
            unfold isTldChar at this
            unfold isDomChar
            simp [this]
      · simpa using htldlen
      · intro hnil
        exact hdomne (by simpa using hnil)

/-! ### Claim C6 -/

/-- Claim C6, as stated, is false on the code: Python `$` also matches just
before one trailing newline, so `is_valid_email` accepts a string that does
not, as a whole, match the canonical pattern anchored at both ends. -/
theorem c6_counterexample :
    is_valid_email "a@b.co\n" = true ∧ ("a@b.co\n" : String) ≠ "" ∧
    ("a@b.co\n" : String).length ≤ 254 ∧ ¬ spec_canonical_match "a@b.co\n" := by
  refine ⟨by decide, by decide, by decide, ?_⟩
  intro hsp
  have h : emailCoreMatch ("a@b.co\n" : String).data = true :=
    (emailCoreMatch_iff_spec _).mpr hsp
  exact absurd h (by decide)

set_option maxRecDepth 4096 in
/-- Claim C6 (amended): `is_valid_email` returns false for the empty string
and for any string longer than 254 characters, and returns true exactly when
the string matches the canonical pattern anchored at both ends, where the
end anchor additionally accepts one trailing newline (Python dollar
semantics); the three concrete examples of the claim hold. -/
theorem c6_validation_characterization :
    (∀ s : String, s.length = 0 → is_valid_email s = false) ∧
    (∀ s : String, 254 < s.length → is_valid_email s = false) ∧
    (∀ s : String, is_valid_email s = true ↔
      (s.length ≠ 0 ∧ s.length ≤ 254 ∧
        (spec_canonical_match s ∨
          (s.data.getLast? = some '\n' ∧ spec_canonical_match (String.mk s.data.dropLast))))) ∧
    is_valid_email "a@b.co" = true ∧
    is_valid_email "a@b" = false ∧
    is_valid_email (String.mk ('a' :: (List.replicate 260 'x' ++ "@b.co".data))) = false := by
  refine ⟨?_, ?_, ?_, by decide, by decide, ?_⟩
  · intro s h
    simp [is_valid_email, h]
  · intro s h
    simp [is_valid_email, h]
  · intro s
    unfold is_valid_email
    by_cases h0 : s.length = 0
    · simp [h0]
    · by_cases h254 : 254 < s.length
      · rw [if_pos (by simp [h254])]
        constructor
        · intro hF; exact absurd hF (by simp)
        · rintro ⟨_, hle, _⟩; omega
      · rw [if_neg (by simp [h0, h254])]
        unfold pyDollarMatch
        rw [Bool.or_eq_true]
        constructor
        · rintro (hc | hm)
          · exact ⟨h0, by omega, Or.inl ((emailCoreMatch_iff_spec s).mp hc)⟩
          · rw [Bool.and_eq_true, decide_eq_true_eq] at hm
            obtain ⟨hl, hcm⟩ := hm
            have h2 : emailCoreMatch (String.mk s.data.dropLast).data = true := hcm
            exact ⟨h0, by omega, Or.inr ⟨hl, (emailCoreMatch_iff_spec _).mp h2⟩⟩
        · rintro ⟨hne, hle, hsp | ⟨hl, hsp⟩⟩
          · exact Or.inl ((emailCoreMatch_iff_spec s).mpr hsp)
          · refine Or.inr ?_
            rw [Bool.and_eq_true, decide_eq_true_eq]
            exact ⟨hl, (emailCoreMatch_iff_spec (String.mk s.data.dropLast)).mpr hsp⟩
  · -- the 266-character example is rejected by the length guard
    decide

/-- Witness for the amended C6 characterization at concrete inputs. -/
theorem c6_witness :
    is_valid_email "" = false ∧ spec_canonical_match "a@b.co" := by
  constructor
  · exact c6_validation_characterization.1 "" (by decide)
  · rcases (c6_validation_characterization.2.2.1 "a@b.co").mp (by decide) with ⟨-, -, h | h⟩
    · exact h
    · exact absurd h.1 (by decide)

/-! ### Claim C5 -/

/-- Claim C5: for every input text, every string in the list returned by
`extract_emails` satisfies `is_valid_email` (the final comprehension of the
source filters on exactly this predicate). -/
theorem c5_extracted_emails_valid (text e : String) (he : e ∈ extract_emails text) :
    is_valid_email e = true := by
  unfold extract_emails at he
  simp only [List.mem_filter] at he
  exact he.2

/-- Witness for C5 at a concrete input. -/
theorem c5_witness : is_valid_email "kim@label.net" = true :=
  c5_extracted_emails_valid "mail kim@label.net soon" "kim@label.net" (by decide)

/-! ### Claim C7: the obfuscated form -/

theorem pySpace_chars {c : Char} (h : isPySpace c = true) :
    c = ' ' ∨ c = '\t' ∨ c = '\n' ∨ c = '\r' ∨ c = '\x0b' ∨ c = '\x0c' := by
  unfold isPySpace at h
  simp only [Bool.or_eq_true, decide_eq_true_eq] at h
  tauto

theorem domChar_not_space {c : Char} (h : isDomChar c = true) : isPySpace c = false := by
  by_contra hs
  rw [Bool.not_eq_false] at hs
  rcases pySpace_chars hs with rfl | rfl | rfl | rfl | rfl | rfl <;> exact absurd h (by decide)

theorem tldChar_isDomChar {c : Char} (h : isTldChar c = true) : isDomChar c = true := by
  unfold isTldChar at h
  unfold isDomChar
  simp [h]

theorem tldChar_isObfusTldChar {c : Char} (h : isTldChar c = true) :
    isObfusTldChar c = true := by
  unfold isTldChar at h
  unfold isObfusTldChar
  simp [h]

/-- Scanning a class run bounded by an optional whitespace and a
non-class character: the run is exactly the class block. -/
theorem run_take_drop {p : Char → Bool} {x w r : List Char} {b : Char}
    (hxs : ∀ c ∈ x, p c = true) (hws : w = [] ∨ w = [' '])
    (hsp : p ' ' = false) (hb : p b = false) :
    (x ++ (w ++ b :: r)).takeWhile p = x ∧
    (x ++ (w ++ b :: r)).dropWhile p = w ++ b :: r := by
  rcases hws with rfl | rfl
  · simp only [List.nil_append]
    exact ⟨takeWhile_append_cons hxs hb, dropWhile_append_cons hxs hb⟩
  · have hx : x ++ ([' '] ++ b :: r) = x ++ ' ' :: (b :: r) := by simp
    rw [hx]
    refine ⟨takeWhile_append_cons hxs hsp, ?_⟩
    rw [dropWhile_append_cons hxs hsp]
    rfl

theorem skipWs1_ws {w r : List Char} {b : Char}
    (hws : w = [] ∨ w = [' ']) (hb : isPySpace b = false) :
    skipWs1 (w ++ b :: r) = b :: r := by
  rcases hws with rfl | rfl
  · show skipWs1 (b :: r) = b :: r
    simp only [skipWs1]
    rw [if_neg (by simp [hb])]
  · show skipWs1 (' ' :: (b :: r)) = b :: r
    simp only [skipWs1]
    rw [if_pos (by decide)]

theorem matchAtTok_eq {a t : Char} {r : List Char}
    (ha : a.toLower = 'a') (ht : t.toLower = 't') :
    matchAtTok ('[' :: a :: t :: ']' :: r) = some r := by
  simp only [matchAtTok]
  rw [if_pos (by simp [ha, ht])]

theorem matchDotTok_eq {d o t : Char} {r : List Char}
    (hd : d.toLower = 'd') (ho : o.toLower = 'o') (ht : t.toLower = 't') :
    matchDotTok ('[' :: d :: o :: t :: ']' :: r) = some r := by
  simp only [matchDotTok]
  rw [if_pos (by simp [hd, ho, ht])]

theorem tryMatchNormal_none {l : List Char} (h : '@' ∉ l) : tryMatchNormal l = none := by
  unfold tryMatchNormal
  split
  case h_1 rest heq =>
    exfalso
    apply h
    apply mem_of_mem_dropWhile (p := isLocalChar)
    rw [heq]
    simp
  case h_2 => rfl

theorem find_all_normal_aux_eq_nil :
    ∀ (fuel : Nat) {l : List Char}, '@' ∉ l → find_all_normal_aux fuel l = [] := by
  intro fuel
  induction fuel with
  | zero =>
    intro l _
    cases l with
    | nil => rfl
    | cons c cs => rfl
  | succ fuel ih =>
    intro l h
    cases l with
    | nil => rfl
    | cons c cs =>
      show (match tryMatchNormal (c :: cs) with
        | some (m, rem) =>
          String.mk m ::
            find_all_normal_aux fuel ((c :: cs).drop (max ((c :: cs).length - rem.length) 1))
        | none => find_all_normal_aux fuel cs) = []
      rw [tryMatchNormal_none h]
      exact ih fun hm => h (List.mem_cons_of_mem _ hm)

theorem find_all_normal_eq_nil {l : List Char} (h : '@' ∉ l) : find_all_normal l = [] :=
  find_all_normal_aux_eq_nil l.length h

/-- The obfuscated pattern matches the canonical obfuscated shape at the
head of the input, binding exactly the three groups and consuming
everything. -/
theorem tryMatchObfus_exact
    {lp dm tl w1 w2 w3 w4 : List Char} {ca ct cd co ct2 : Char}
    (hlp : lp ≠ []) (hlpc : ∀ c ∈ lp, isLocalChar c = true)
    (hdm : dm ≠ []) (hdmc : ∀ c ∈ dm, isDomChar c = true)
    (htl : 2 ≤ tl.length) (htlc : ∀ c ∈ tl, isTldChar c = true)
    (hw1 : w1 = [] ∨ w1 = [' ']) (hw2 : w2 = [] ∨ w2 = [' '])
    (hw3 : w3 = [] ∨ w3 = [' ']) (hw4 : w4 = [] ∨ w4 = [' '])
    (ha : ca.toLower = 'a') (ht : ct.toLower = 't')
    (hd : cd.toLower = 'd') (ho : co.toLower = 'o') (ht2 : ct2.toLower = 't') :
    tryMatchObfus (lp ++ (w1 ++ ('[' :: ca :: ct :: ']' ::
        (w2 ++ (dm ++ (w3 ++ ('[' :: cd :: co :: ct2 :: ']' :: (w4 ++ tl)))))))) =
      some ((lp, dm, tl), []) := by
  obtain ⟨m, dm0, rfl⟩ := List.exists_cons_of_ne_nil hdm
  have htlne : tl ≠ [] := by intro h; rw [h] at htl; simp at htl
  obtain ⟨u, tl0, rfl⟩ := List.exists_cons_of_ne_nil htlne
  have hm : isPySpace m = false := domChar_not_space (hdmc m (by simp))
  have hu : isPySpace u = false :=
    domChar_not_space (tldChar_isDomChar (htlc u (by simp)))
  have h12 := run_take_drop (p := isLocalChar) (x := lp) (w := w1) (b := '[')
    (r := ca :: ct :: ']' ::
      (w2 ++ m :: (dm0 ++ (w3 ++ '[' :: cd :: co :: ct2 :: ']' :: (w4 ++ u :: tl0)))))
    hlpc hw1 (by decide) (by decide)
  have h3 := skipWs1_ws (w := w1) (b := '[')
    (r := ca :: ct :: ']' ::
      (w2 ++ m :: (dm0 ++ (w3 ++ '[' :: cd :: co :: ct2 :: ']' :: (w4 ++ u :: tl0)))))
    hw1 (by decide)
  have h4 := matchAtTok_eq
    (r := w2 ++ m :: (dm0 ++ (w3 ++ '[' :: cd :: co :: ct2 :: ']' :: (w4 ++ u :: tl0))))
    ha ht
  have h5 := skipWs1_ws (w := w2) (b := m)
    (r := dm0 ++ (w3 ++ '[' :: cd :: co :: ct2 :: ']' :: (w4 ++ u :: tl0)))
    hw2 hm
  have h6 := run_take_drop (p := isDomChar) (x := m :: dm0) (w := w3) (b := '[')
    (r := cd :: co :: ct2 :: ']' :: (w4 ++ u :: tl0))
    hdmc hw3 (by decide) (by decide)
  simp only [List.cons_append] at h6
  have h7 := skipWs1_ws (w := w3) (b := '[')
    (r := cd :: co :: ct2 :: ']' :: (w4 ++ u :: tl0)) hw3 (by decide)
  have h8 := matchDotTok_eq (r := w4 ++ u :: tl0) hd ho ht2
  have h9 := skipWs1_ws (w := w4) (b := u) (r := tl0) hw4 hu
  have h10 : (u :: tl0).takeWhile isObfusTldChar = u :: tl0 :=
    takeWhile_all_eq fun c hc => tldChar_isObfusTldChar (htlc c hc)
  have h11 : (u :: tl0).dropWhile isObfusTldChar = [] :=
    dropWhile_all_eq_nil fun c hc => tldChar_isObfusTldChar (htlc c hc)
  have hlpE : lp.isEmpty = false := by
    cases lp with
    | nil => exact absurd rfl hlp
    | cons x xs => rfl
  have hlen2 : ¬((u :: tl0).length < 2) := by omega
  unfold tryMatchObfus
  simp only [List.cons_append]
  simp only [h12.1, h12.2, h3, h4, h5, h6.1, h6.2, h7, h8, h9, h10, h11, hlpE, hlen2]
  simp

/-- A well-formed reconstruction `local@domain.tld` passes the strict
validator whenever its total length fits the 254 bound. -/
theorem is_valid_email_of_parts {lp dm tl : List Char}
    (hlp : lp ≠ []) (hlpc : ∀ c ∈ lp, isLocalChar c = true)
    (hdm : dm ≠ []) (hdmc : ∀ c ∈ dm, isDomChar c = true)
    (htl : 2 ≤ tl.length) (htlc : ∀ c ∈ tl, isTldChar c = true)
    (hlen : lp.length + 1 + (dm.length + 1 + tl.length) ≤ 254) :
    is_valid_email (String.mk (lp ++ '@' :: (dm ++ '.' :: tl))) = true := by
  have hspec : spec_canonical_match (String.mk (lp ++ '@' :: (dm ++ '.' :: tl))) :=
    ⟨lp, dm, tl, rfl, hlp, hlpc, hdm, hdmc, htl, htlc⟩
  have hcore := (emailCoreMatch_iff_spec (String.mk (lp ++ '@' :: (dm ++ '.' :: tl)))).mpr hspec
  have hL : (String.mk (lp ++ '@' :: (dm ++ '.' :: tl))).length =
      lp.length + 1 + (dm.length + 1 + tl.length) := by
    show (lp ++ '@' :: (dm ++ '.' :: tl)).length = _
    simp only [List.length_append, List.length_cons]
    omega
  unfold is_valid_email
  rw [if_neg (by simp only [Bool.or_eq_true, decide_eq_true_eq, hL]; omega)]
  unfold pyDollarMatch
  rw [Bool.or_eq_true]
  exact Or.inl hcore

/-- One full-width match at the head of the input is the only one the
scanner reports. -/
theorem find_all_obfus_aux_cons_full {fuel : Nat} {x : Char} {Z : List Char}
    {g : List Char × List Char × List Char}
    (h : tryMatchObfus (x :: Z) = some (g, [])) :
    find_all_obfus_aux (fuel + 1) (x :: Z) = [g] := by
  show (match tryMatchObfus (x :: Z) with
    | some (g, rem) =>
      g :: find_all_obfus_aux fuel ((x :: Z).drop (max ((x :: Z).length - rem.length) 1))
    | none => find_all_obfus_aux fuel Z) = [g]
  rw [h]
  show g :: find_all_obfus_aux fuel
      ((x :: Z).drop (max ((x :: Z).length - ([] : List Char).length) 1)) = [g]
  have hmax : max ((x :: Z).length - ([] : List Char).length) 1 = Z.length + 1 := by
    simp
  rw [hmax, List.drop_succ_cons, List.drop_length]
  simp [find_all_obfus_aux]

/-- Claim C7: `extract_emails` recognizes the obfuscated form
`local [at] domain [dot] tld` with each whitespace optional and the literal
tokens matched case-insensitively, reconstructing `local@domain.tld`; in
particular the spec instance yields exactly `jane@example.com`. -/
theorem c7_obfuscated_reconstruction
    {lp dm tl w1 w2 w3 w4 : List Char} {ca ct cd co ct2 : Char}
    (hlp : lp ≠ []) (hlpc : ∀ c ∈ lp, isLocalChar c = true)
    (hdm : dm ≠ []) (hdmc : ∀ c ∈ dm, isDomChar c = true)
    (htl : 2 ≤ tl.length) (htlc : ∀ c ∈ tl, isTldChar c = true)
    (hw1 : w1 = [] ∨ w1 = [' ']) (hw2 : w2 = [] ∨ w2 = [' '])
    (hw3 : w3 = [] ∨ w3 = [' ']) (hw4 : w4 = [] ∨ w4 = [' '])
    (ha : ca.toLower = 'a') (ht : ct.toLower = 't')
    (hd : cd.toLower = 'd') (ho : co.toLower = 'o') (ht2 : ct2.toLower = 't')
    (hlen : lp.length + 1 + (dm.length + 1 + tl.length) ≤ 254) :
    extract_emails (String.mk (lp ++ (w1 ++ ('[' :: ca :: ct :: ']' ::
        (w2 ++ (dm ++ (w3 ++ ('[' :: cd :: co :: ct2 :: ']' :: (w4 ++ tl))))))))) =
      [String.mk (lp ++ '@' :: (dm ++ '.' :: tl))] ∧
    extract_emails "contact me at jane [at] example [dot] com" = ["jane@example.com"] := by
  refine ⟨?_, by decide⟩
  have hmatch := tryMatchObfus_exact hlp hlpc hdm hdmc htl htlc hw1 hw2 hw3 hw4
    ha ht hd ho ht2
  have hvalid := is_valid_email_of_parts hlp hlpc hdm hdmc htl htlc hlen
  have hws : ∀ {w : List Char}, w = [] ∨ w = [' '] → '@' ∈ w → False := by
    rintro w (rfl | rfl) h
    · simp at h
    · rw [List.mem_singleton] at h
      exact absurd h (by decide)
  have hAt : '@' ∉ (lp ++ (w1 ++ ('[' :: ca :: ct :: ']' ::
      (w2 ++ (dm ++ (w3 ++ ('[' :: cd :: co :: ct2 :: ']' :: (w4 ++ tl)))))))) := by
    intro hmem
    simp only [List.mem_append, List.mem_cons] at hmem
    rcases hmem with h | h | h | h | h | h | h | h | h | h | h | h | h | h | h | h
    · exact absurd (hlpc _ h) (by decide)
    · exact hws hw1 h
    · exact absurd h (by decide)
    · rw [← h] at ha; exact absurd ha (by decide)
    · rw [← h] at ht; exact absurd ht (by decide)
    · exact absurd h (by decide)
    · exact hws hw2 h
    · exact absurd (hdmc _ h) (by decide)
    · exact hws hw3 h
    · exact absurd h (by decide)
    · rw [← h] at hd; exact absurd hd (by decide)
    · rw [← h] at ho; exact absurd ho (by decide)
    · rw [← h] at ht2; exact absurd ht2 (by decide)
    · exact absurd h (by decide)
    · exact hws hw4 h
    · exact absurd (htlc _ h) (by decide)
  have hnorm := find_all_normal_eq_nil hAt
  obtain ⟨x, lp0, rfl⟩ := List.exists_cons_of_ne_nil hlp
  simp only [List.cons_append] at hmatch hnorm ⊢
  have hobf : find_all_obfus (x :: (lp0 ++ (w1 ++ '[' :: ca :: ct :: ']' ::
      (w2 ++ (dm ++ (w3 ++ '[' :: cd :: co :: ct2 :: ']' :: (w4 ++ tl))))))) =
      [(x :: lp0, dm, tl)] := by
    unfold find_all_obfus
    simp only [List.length_cons]
    exact find_all_obfus_aux_cons_full hmatch
  unfold extract_emails
  have hdata : (String.mk (x :: (lp0 ++ (w1 ++ '[' :: ca :: ct :: ']' ::
      (w2 ++ (dm ++ (w3 ++ '[' :: cd :: co :: ct2 :: ']' :: (w4 ++ tl)))))))).data =
      x :: (lp0 ++ (w1 ++ '[' :: ca :: ct :: ']' ::
      (w2 ++ (dm ++ (w3 ++ '[' :: cd :: co :: ct2 :: ']' :: (w4 ++ tl)))))) := rfl
  rw [hdata, hnorm, hobf]
  have hE : String.mk (x :: lp0) ++ "@" ++ String.mk dm ++ "." ++ String.mk tl =
      String.mk (x :: (lp0 ++ '@' :: (dm ++ '.' :: tl))) := by
    show String.mk ((((x :: lp0) ++ ['@']) ++ dm) ++ ['.'] ++ tl) = _
    apply congrArg String.mk
    simp
  simp only [List.nil_append, List.map_cons, List.map_nil]
  rw [hE]
  have hded : [String.mk (x :: (lp0 ++ '@' :: (dm ++ '.' :: tl)))].dedup =
      [String.mk (x :: (lp0 ++ '@' :: (dm ++ '.' :: tl)))] := by
    simp
  rw [hded]
  simp only [List.cons_append] at hvalid
  simp [List.filter, hvalid]

/-- Witness for C7: a concrete instance with mixed-case tokens and
whitespace present on only some sides. -/
theorem c7_witness :
    extract_emails "Jane[AT] my-band [DoT]com" = ["Jane@my-band.com"] := by
  have h := (@c7_obfuscated_reconstruction
    "Jane".data "my-band".data "com".data [] [' '] [' '] [] 'A' 'T' 'D' 'o' 'T'
    (by decide) (by decide) (by decide) (by decide) (by decide) (by decide)
    (Or.inl rfl) (Or.inr rfl) (Or.inr rfl) (Or.inl rfl)
    (by decide) (by decide) (by decide) (by decide) (by decide) (by decide)).1
  have e1 : String.mk ("Jane".data ++ ([] ++ ('[' :: 'A' :: 'T' :: ']' ::
      ([' '] ++ ("my-band".data ++ ([' '] ++ ('[' :: 'D' :: 'o' :: 'T' :: ']' ::
      ([] ++ "com".data)))))))) = "Jane[AT] my-band [DoT]com" := by decide
  have e2 : String.mk ("Jane".data ++ '@' :: ("my-band".data ++ '.' :: "com".data)) =
      "Jane@my-band.com" := by decide
  rw [e1, e2] at h
  exact h

/-! ### Claims C4 and C10 -/

/-- Exact characterization of both components of the filter: candidates
without an `@` fall into neither list; the rest split by the keep
criterion. -/
theorem filter_emails_full_spec (rd : String → String) (wd : String) :
    ∀ emails : List String,
      (filter_emails_full rd emails wd).1 =
        emails.filter (fun e => py_char_in '@' e && keep_email rd wd e) ∧
      (filter_emails_full rd emails wd).2 =
        emails.filter (fun e => py_char_in '@' e && !(keep_email rd wd e)) := by
  intro emails
  induction emails with
  | nil => exact ⟨rfl, rfl⟩
  | cons email rest ih =>
    obtain ⟨ih1, ih2⟩ := ih
    simp only [filter_emails_full, List.filter_cons]
    cases hat : py_char_in '@' email with
    | false => simp [hat, ih1, ih2]
    | true =>
      by_cases hk1 : (py_truthy wd &&
          decide (email_reg_domain rd email = py_lower wd)) = true
      · simp [hat, keep_email, hk1, ih1, ih2]
      · rw [Bool.not_eq_true] at hk1
        by_cases hk2 : email_reg_domain rd email ∈ PUBLIC_EMAIL_DOMAINS
        · simp [hat, keep_email, hk1, hk2, ih1, ih2]
        · simp [hat, keep_email, hk1, hk2, ih1, ih2]

/-- Claim C4: the Domain Trust Filter keeps exactly the candidates (with an
`@`, as every email reaching it has) whose registered domain matches the
lowercased reference domain or lies in the Public Email Providers set; with
an empty reference domain only the public-provider branch can keep. -/
theorem c4_domain_filter_characterization (rd : String → String)
    (emails : List String) (wd : String) :
    filter_emails_by_domain rd emails wd =
      emails.filter (fun e => py_char_in '@' e && keep_email rd wd e) ∧
    (wd = "" →
      filter_emails_by_domain rd emails wd =
        emails.filter (fun e =>
          py_char_in '@' e &&
            PUBLIC_EMAIL_DOMAINS.contains (email_reg_domain rd e))) := by
  refine ⟨(filter_emails_full_spec rd wd emails).1, ?_⟩
  rintro rfl
  rw [show filter_emails_by_domain rd emails "" = (filter_emails_full rd emails "").1 from rfl,
    (filter_emails_full_spec rd "" emails).1]
  apply List.filter_congr
  intro e _
  simp [keep_email, py_truthy]

/-- Witness for C4: the spec examples, and the empty-reference case. -/
theorem c4_witness :
    filter_emails_by_domain rdFlat
      ["band@example.com", "fan@gmail.com", "promo@othersite.net"] "example.com" =
      ["band@example.com", "fan@gmail.com"] ∧
    filter_emails_by_domain rdFlat ["band@example.com", "fan@gmail.com"] "" =
      ["fan@gmail.com"] := by
  constructor
  · rw [(c4_domain_filter_characterization rdFlat
      ["band@example.com", "fan@gmail.com", "promo@othersite.net"] "example.com").1]
    decide
  · rw [(c4_domain_filter_characterization rdFlat
      ["band@example.com", "fan@gmail.com"] "").2 rfl]
    decide

/-- Claim C10: a candidate without `@` is silently dropped by the filter:
it reaches neither the kept result nor the logged domain-mismatch list. -/
theorem c10_no_at_silently_skipped (rd : String → String) (emails : List String)
    (wd : String) (e : String) (he : py_char_in '@' e = false) :
    e ∉ (filter_emails_full rd emails wd).1 ∧
    e ∉ (filter_emails_full rd emails wd).2 := by
  obtain ⟨h1, h2⟩ := filter_emails_full_spec rd wd emails
  rw [h1, h2]
  constructor <;>
  · intro hm
    have hp := List.of_mem_filter hm
    simp [he] at hp

/-- Witness for C10: `gmail.com` (no `@`) would satisfy the public-provider
branch, yet appears in neither output component. -/
theorem c10_witness :
    "gmail.com" ∉ (filter_emails_full rdFlat ["gmail.com", "a@b.co"] "b.co").1 ∧
    "gmail.com" ∉ (filter_emails_full rdFlat ["gmail.com", "a@b.co"] "b.co").2 :=
  c10_no_at_silently_skipped rdFlat ["gmail.com", "a@b.co"] "b.co" "gmail.com" (by decide)

/-! ### Claim C9: batch deduplication -/

theorem dedupe_not_seen :
    ∀ (rs : List ContactRecord) (seen : List String) (r : ContactRecord),
      r ∈ dedupe_by_email rs seen → r.email ∉ seen := by
  intro rs
  induction rs with
  | nil => intro seen r h; simp [dedupe_by_email] at h
  | cons x rest ih =>
    intro seen r h
    simp only [dedupe_by_email] at h
    by_cases hx : x.email ∈ seen
    · rw [if_pos hx] at h
      exact ih seen r h
    · rw [if_neg hx] at h
      rcases List.mem_cons.mp h with rfl | h2
      · exact hx
      · have h3 := ih (x.email :: seen) r h2
        intro hc
        exact h3 (List.mem_cons_of_mem _ hc)

theorem dedupe_nodup :
    ∀ (rs : List ContactRecord) (seen : List String),
      ((dedupe_by_email rs seen).map ContactRecord.email).Nodup := by
  intro rs
  induction rs with
  | nil => intro seen; simp [dedupe_by_email]
  | cons x rest ih =>
    intro seen
    simp only [dedupe_by_email]
    by_cases hx : x.email ∈ seen
    · rw [if_pos hx]; exact ih seen
    · rw [if_neg hx]
      simp only [List.map_cons, List.nodup_cons]
      refine ⟨?_, ih (x.email :: seen)⟩
      intro hmem
      rcases List.mem_map.mp hmem with ⟨r, hr, he⟩
      have h3 := dedupe_not_seen rest (x.email :: seen) r hr
      exact h3 (by rw [he]; exact List.mem_cons_self _ _)

theorem dedupe_find_first :
    ∀ (rs : List ContactRecord) (seen : List String) (r : ContactRecord),
      r ∈ dedupe_by_email rs seen →
      rs.find? (fun x => x.email == r.email) = some r := by
  intro rs
  induction rs with
  | nil => intro seen r h; simp [dedupe_by_email] at h
  | cons x rest ih =>
    intro seen r h
    simp only [dedupe_by_email] at h
    by_cases hx : x.email ∈ seen
    · rw [if_pos hx] at h
      have hne : r.email ∉ seen := dedupe_not_seen rest seen r h
      have hxr : (x.email == r.email) = false := by
        rw [beq_eq_false_iff_ne]
        intro he
        exact hne (he ▸ hx)
      rw [List.find?_cons_of_neg _ (by simp [hxr])]
      exact ih seen r h
    · rw [if_neg hx] at h
      rcases List.mem_cons.mp h with rfl | h2
      · rw [List.find?_cons_of_pos _ (by simp)]
      · have hne := dedupe_not_seen rest (x.email :: seen) r h2
        have hxr : (x.email == r.email) = false := by
          rw [beq_eq_false_iff_ne]
          intro he
          exact hne (by rw [← he]; exact List.mem_cons_self _ _)
        rw [List.find?_cons_of_neg _ (by simp [hxr])]
        exact ih (x.email :: seen) r h2

theorem dedupe_covers :
    ∀ (rs : List ContactRecord) (seen : List String) (r : ContactRecord), r ∈ rs →
      r.email ∈ seen ∨ ∃ r2 ∈ dedupe_by_email rs seen, r2.email = r.email := by
  intro rs
  induction rs with
  | nil => intro seen r h; simp at h
  | cons x rest ih =>
    intro seen r h
    simp only [dedupe_by_email]
    by_cases hx : x.email ∈ seen
    · rw [if_pos hx]
      rcases List.mem_cons.mp h with rfl | h2
      · exact Or.inl hx
      · exact ih seen r h2
    · rw [if_neg hx]
      rcases List.mem_cons.mp h with rfl | h2
      · exact Or.inr ⟨r, List.mem_cons_self _ _, rfl⟩
      · rcases ih (x.email :: seen) r h2 with hseen | ⟨r2, hr2, he⟩
        · rcases List.mem_cons.mp hseen with he | hs
          · exact Or.inr ⟨x, List.mem_cons_self _ _, he.symm⟩
          · exact Or.inl hs
        · exact Or.inr ⟨r2, List.mem_cons_of_mem _ hr2, he⟩

/-- Claim C9: after all tasks complete, the contact list holds at most one
record per distinct email; each surviving record is the first record with
its email in the aggregated sequence (so its `source_url` is the
first-seen one), and every discovered email is represented. -/
theorem c9_batch_dedup (tasks : List TaskResult) :
    ((main_contacts tasks).map ContactRecord.email).Nodup ∧
    (∀ r ∈ main_contacts tasks,
      ((tasks.map TaskResult.emails).flatten).find? (fun x => x.email == r.email) =
        some r) ∧
    (∀ r ∈ (tasks.map TaskResult.emails).flatten,
      ∃ r2 ∈ main_contacts tasks, r2.email = r.email) := by
  refine ⟨dedupe_nodup _ _, ?_, ?_⟩
  · intro r hr
    exact dedupe_find_first _ [] r hr
  · intro r hr
    rcases dedupe_covers _ [] r hr with hseen | h
    · simp at hseen
    · exact h

/-- Witness for C9: two tasks discover `same@band.com` from different
source URLs; exactly the first-seen record survives. -/
theorem c9_witness :
    main_contacts [c9task1, c9task2] =
      [{ email := "same@band.com", name := "A", notes := "", source_url := "url1" }] ∧
    (([c9task1, c9task2].map TaskResult.emails).flatten).find?
        (fun x => x.email ==
          ({ email := "same@band.com", name := "A", notes := "",
             source_url := "url1" } : ContactRecord).email) =
      some { email := "same@band.com", name := "A", notes := "", source_url := "url1" } := by
  refine ⟨by decide, ?_⟩
  exact (c9_batch_dedup [c9task1, c9task2]).2.1
    { email := "same@band.com", name := "A", notes := "", source_url := "url1" }
    (by decide)

/-! ### Claim C8: rate limiting -/

/-- Claim C8: a 429 album fetch makes the task return immediately with
`rate_limited` true, no contacts, no error, and the 5 second backoff sleep
(the URL is fetched once and never retried: the batch submits one task per
URL); wherever that task result lands in the completion sequence, the batch
contacts and errors are those of the remaining tasks alone, so nothing
escapes the batch. -/
theorem c8_rate_limited (rd : String → String) (uj : String → String → String)
    (fetchAlbum : String → Option (Nat × AlbumPage))
    (fetchSite : String → Option SitePage) (url : String)
    (st : Nat) (pg : AlbumPage)
    (hfa : fetchAlbum url = some (st, pg)) (hst : st = 429) :
    process_album rd uj fetchAlbum fetchSite url =
      { emails := [], logs := [.scrapingAlbum url, .rateLimitedBackoff],
        error := none, rate_limited := true, sleepMs := 5000 } ∧
    (∀ pre post : List TaskResult,
      main_contacts (pre ++ process_album rd uj fetchAlbum fetchSite url :: post) =
        main_contacts (pre ++ post) ∧
      main_errors (pre ++ process_album rd uj fetchAlbum fetchSite url :: post) =
        main_errors (pre ++ post)) := by
  subst hst
  have hs : scrape_album_page rd fetchAlbum url =
      ⟨[], "", "", "", [.scrapingAlbum url, .rateLimitedBackoff], true⟩ := by
    unfold scrape_album_page
    rw [hfa]
    simp
  have hp : process_album rd uj fetchAlbum fetchSite url =
      { emails := [], logs := [.scrapingAlbum url, .rateLimitedBackoff],
        error := none, rate_limited := true, sleepMs := 5000 } := by
    simp [process_album, hs]
  refine ⟨hp, ?_⟩
  intro pre post
  constructor
  · unfold main_contacts
    rw [hp]
    simp
  · unfold main_errors
    rw [hp]
    simp

/-- Witness for C8 on a concrete always-429 fetch. -/
theorem c8_witness :
    process_album rdFlat ujCat fa429 fsNone "album1" =
      { emails := [], logs := [.scrapingAlbum "album1", .rateLimitedBackoff],
        error := none, rate_limited := true, sleepMs := 5000 } ∧
    main_contacts [process_album rdFlat ujCat fa429 fsNone "album1"] = [] := by
  have h := c8_rate_limited rdFlat ujCat fa429 fsNone "album1" 429 pgEmpty rfl rfl
  refine ⟨h.1, ?_⟩
  have h2 := (h.2 [] []).1
  simp only [List.nil_append] at h2
  rw [h2]
  simp [main_contacts, dedupe_by_email]

/-! ### Claim C2: resolver priority -/

theorem scrape_album_page_bio (rd : String → String)
    (fa : String → Option (Nat × AlbumPage)) (url : String) (st : Nat) (pg : AlbumPage)
    (hfa : fa url = some (st, pg)) (hst : st < 400)
    (hbe : extract_emails (bio_text_of pg) ≠ []) :
    scrape_album_page rd fa url =
      ⟨extract_emails (bio_text_of pg), "", pg.nameEl.getD "", py_strip (bio_text_of pg),
       [.scrapingAlbum url, .foundBioEmails (extract_emails (bio_text_of pg))], false⟩ := by
  unfold scrape_album_page
  rw [hfa]
  have h1 : ¬(st = 429) := by omega
  have h2 : ¬(400 ≤ st ∧ st < 600) := by omega
  simp [h1, h2, hbe]

theorem scrape_album_page_mailto (rd : String → String)
    (fa : String → Option (Nat × AlbumPage)) (url : String) (st : Nat) (pg : AlbumPage)
    (hfa : fa url = some (st, pg)) (hst : st < 400)
    (hbe : extract_emails (bio_text_of pg) = [])
    (hme : extract_mailto_emails pg.anchors ≠ []) :
    scrape_album_page rd fa url =
      ⟨extract_mailto_emails pg.anchors, "", pg.nameEl.getD "", py_strip (bio_text_of pg),
       [.scrapingAlbum url, .foundMailtoEmails (extract_mailto_emails pg.anchors)], false⟩ := by
  unfold scrape_album_page
  rw [hfa]
  have h1 : ¬(st = 429) := by omega
  have h2 : ¬(400 ≤ st ∧ st < 600) := by omega
  simp [h1, h2, hbe, hme]

theorem scrape_album_page_ext (rd : String → String)
    (fa : String → Option (Nat × AlbumPage)) (url : String) (st : Nat) (pg : AlbumPage)
    (hfa : fa url = some (st, pg)) (hst : st < 400)
    (hbe : extract_emails (bio_text_of pg) = [])
    (hme : extract_mailto_emails pg.anchors = []) :
    scrape_album_page rd fa url =
      ⟨[], find_external_link rd pg.bandLinks, pg.nameEl.getD "",
       py_strip (bio_text_of pg),
       [.scrapingAlbum url, .noEmailChecking] ++
         (if py_truthy (find_external_link rd pg.bandLinks) then
           [.foundExternalLink (find_external_link rd pg.bandLinks)] else []), false⟩ := by
  unfold scrape_album_page
  rw [hfa]
  have h1 : ¬(st = 429) := by omega
  have h2 : ¬(400 ≤ st ∧ st < 600) := by omega
  simp [h1, h2, hbe, hme]

/-- Claim C2: when the Email Extractor finds emails in the biography text,
the resolver returns one record per such email with name, 500-character
notes and source URL as specified, and the result does not involve the
page anchors (mailto links) or the site fetcher (external site); mailto
links produce records only when the bio is empty, and the external site is
consulted only when both bio and mailto are empty and an external link was
found. -/
theorem c2_resolver_priority (rd : String → String) (uj : String → String → String)
    (fetchAlbum : String → Option (Nat × AlbumPage))
    (fetchSite : String → Option SitePage) (url : String) (st : Nat) (pg : AlbumPage)
    (hfa : fetchAlbum url = some (st, pg)) (hst : st < 400) :
    (extract_emails (bio_text_of pg) ≠ [] →
      process_album rd uj fetchAlbum fetchSite url =
        { emails := (extract_emails (bio_text_of pg)).map fun email =>
            { email := email, name := pg.nameEl.getD "",
              notes := if py_truthy (py_strip (bio_text_of pg)) then
                  py_take (py_strip (bio_text_of pg)) 500 else "",
              source_url := url },
          logs := [.scrapingAlbum url, .foundBioEmails (extract_emails (bio_text_of pg))],
          error := none, rate_limited := false, sleepMs := 300 }) ∧
    (extract_emails (bio_text_of pg) = [] → extract_mailto_emails pg.anchors ≠ [] →
      process_album rd uj fetchAlbum fetchSite url =
        { emails := (extract_mailto_emails pg.anchors).map fun email =>
            { email := email, name := pg.nameEl.getD "",
              notes := if py_truthy (py_strip (bio_text_of pg)) then
                  py_take (py_strip (bio_text_of pg)) 500 else "",
              source_url := url },
          logs := [.scrapingAlbum url, .foundMailtoEmails (extract_mailto_emails pg.anchors)],
          error := none, rate_limited := false, sleepMs := 300 }) ∧
    (extract_emails (bio_text_of pg) = [] → extract_mailto_emails pg.anchors = [] →
      py_truthy (find_external_link rd pg.bandLinks) = true →
      (process_album rd uj fetchAlbum fetchSite url).emails =
        (scrape_external_site rd uj fetchSite (find_external_link rd pg.bandLinks)).1.map
          fun email =>
            { email := email, name := pg.nameEl.getD "",
              notes := if py_truthy (py_strip (bio_text_of pg)) then
                  py_take (py_strip (bio_text_of pg)) 500 else "",
              source_url := url }) ∧
    (extract_emails (bio_text_of pg) = [] → extract_mailto_emails pg.anchors = [] →
      py_truthy (find_external_link rd pg.bandLinks) = false →
      (process_album rd uj fetchAlbum fetchSite url).emails = []) := by
  refine ⟨?_, ?_, ?_, ?_⟩
  · intro hbe
    have hs := scrape_album_page_bio rd fetchAlbum url st pg hfa hst hbe
    simp [process_album, hs, hbe]
  · intro hbe hme
    have hs := scrape_album_page_mailto rd fetchAlbum url st pg hfa hst hbe hme
    simp [process_album, hs, hme]
  · intro hbe hme hext
    have hs := scrape_album_page_ext rd fetchAlbum url st pg hfa hst hbe hme
    simp [process_album, hs, hext]
  · intro hbe hme hext
    have hs := scrape_album_page_ext rd fetchAlbum url st pg hfa hst hbe hme
    simp [process_album, hs, hext]

/-- Witness for C2: a page whose bio carries an email while a mailto link
and a band link are present and ignored. -/
theorem c2_witness :
    process_album rdFlat ujCat faBio fsNone "albumB" =
      { emails := [{ email := "a@b.co", name := "The Band",
                     notes := "reach us a@b.co", source_url := "albumB" }],
        logs := [.scrapingAlbum "albumB", .foundBioEmails ["a@b.co"]],
        error := none, rate_limited := false, sleepMs := 300 } := by
  have h := (c2_resolver_priority rdFlat ujCat faBio fsNone "albumB" 200 pgBio
    (by decide) (by omega)).1 (by decide)
  rw [h]
  decide

/-! ### Claim C1: record invariants -/

theorem extract_emails_valid (text e : String) (he : e ∈ extract_emails text) :
    is_valid_email e = true := by
  unfold extract_emails at he
  simp only [List.mem_filter] at he
  exact he.2

theorem extract_mailto_valid (anchors : List Anchor) (e : String)
    (he : e ∈ extract_mailto_emails anchors) : is_valid_email e = true := by
  unfold extract_mailto_emails at he
  rw [List.mem_dedup] at he
  rcases List.mem_filterMap.mp he with ⟨a, ha, hfa⟩
  split at hfa
  · split at hfa
    · injection hfa with hfa
      rw [← hfa]
      assumption
    · simp at hfa
  · simp at hfa

theorem mem_filter_emails_by_domain {rd : String → String} {emails : List String}
    {wd e : String} (h : e ∈ filter_emails_by_domain rd emails wd) :
    e ∈ emails ∧ keep_email rd wd e = true := by
  have hc := (filter_emails_full_spec rd wd emails).1
  unfold filter_emails_by_domain at h
  rw [hc] at h
  refine ⟨List.mem_of_mem_filter h, ?_⟩
  have hp := List.of_mem_filter h
  rw [Bool.and_eq_true] at hp
  exact hp.2

theorem contact_scan_sound (rd : String → String) (uj : String → String → String)
    (fs : String → Option SitePage) (wd base : String) :
    ∀ (anchors : List Anchor) (e : String),
      e ∈ (contact_scan rd uj fs wd base anchors).1 →
      is_valid_email e = true ∧ keep_email rd wd e = true := by
  intro anchors
  induction anchors with
  | nil => intro e h; simp [contact_scan] at h
  | cons a rest ih =>
    intro e h
    simp only [contact_scan] at h
    repeat' split at h
    all_goals first
      | exact ih e h
      | (have hm := mem_filter_emails_by_domain h
         exact ⟨extract_emails_valid _ e hm.1, hm.2⟩)
      | (have hm := mem_filter_emails_by_domain h
         exact ⟨extract_mailto_valid _ e hm.1, hm.2⟩)
      | exact absurd h (by simp)

theorem scrape_external_site_sound (rd : String → String) (uj : String → String → String)
    (fs : String → Option SitePage) (url : String) :
    ∀ e ∈ (scrape_external_site rd uj fs url).1,
      is_valid_email e = true ∧ keep_email rd (rd url) e = true := by
  intro e h
  unfold scrape_external_site at h
  repeat' split at h
  all_goals first
    | (have hm := mem_filter_emails_by_domain h
       exact ⟨extract_emails_valid _ e hm.1, hm.2⟩)
    | (have hm := mem_filter_emails_by_domain h
       exact ⟨extract_mailto_valid _ e hm.1, hm.2⟩)
    | exact contact_scan_sound rd uj fs (rd url) _ _ e h
    | exact absurd h (by simp)

theorem scrape_album_page_emails_valid (rd : String → String)
    (fa : String → Option (Nat × AlbumPage)) (url : String) :
    ∀ e ∈ (scrape_album_page rd fa url).emails, is_valid_email e = true := by
  intro e
  unfold scrape_album_page
  split
  · intro he; simp at he
  · split
    · intro he; simp at he
    · split
      · intro he; simp at he
      · split
        · intro he
          simp only at he
          exact extract_emails_valid _ e he
        · split
          · intro he
            simp only at he
            exact extract_mailto_valid _ e he
          · intro he; simp at he

theorem map_email_mk (nm nt src : String) (l : List String) :
    l.map (ContactRecord.email ∘ fun email =>
      ({ email := email, name := nm, notes := nt, source_url := src } : ContactRecord)) = l := by
  induction l with
  | nil => rfl
  | cons x xs ih => simp only [List.map_cons, Function.comp_apply, ih]

/-- Claim C1: every record a processed album yields carries a validated
email; every email the external-site path returns satisfied the Domain
Trust Filter criterion for the registered domain of the visited site, so
external-path records are domain-filtered; and emails found in the album
page itself (bio text, else mailto links) become records unchanged, with no
domain filtering applied to them. -/
theorem c1_record_invariants (rd : String → String) (uj : String → String → String)
    (fetchAlbum : String → Option (Nat × AlbumPage))
    (fetchSite : String → Option SitePage) (url : String) :
    (∀ r ∈ (process_album rd uj fetchAlbum fetchSite url).emails,
      is_valid_email r.email = true) ∧
    (∀ u : String, ∀ e ∈ (scrape_external_site rd uj fetchSite u).1,
      keep_email rd (rd u) e = true) ∧
    (∀ (st : Nat) (pg : AlbumPage), fetchAlbum url = some (st, pg) → st < 400 →
      extract_emails (bio_text_of pg) = [] → extract_mailto_emails pg.anchors = [] →
      py_truthy (find_external_link rd pg.bandLinks) = true →
      ∀ r ∈ (process_album rd uj fetchAlbum fetchSite url).emails,
        keep_email rd (rd (find_external_link rd pg.bandLinks)) r.email = true) ∧
    (∀ (st : Nat) (pg : AlbumPage), fetchAlbum url = some (st, pg) → st < 400 →
      extract_emails (bio_text_of pg) ≠ [] →
      (process_album rd uj fetchAlbum fetchSite url).emails.map ContactRecord.email =
        extract_emails (bio_text_of pg)) ∧
    (∀ (st : Nat) (pg : AlbumPage), fetchAlbum url = some (st, pg) → st < 400 →
      extract_emails (bio_text_of pg) = [] → extract_mailto_emails pg.anchors ≠ [] →
      (process_album rd uj fetchAlbum fetchSite url).emails.map ContactRecord.email =
        extract_mailto_emails pg.anchors) := by
  refine ⟨?_, ?_, ?_, ?_, ?_⟩
  · intro r hr
    simp only [process_album] at hr
    split at hr
    · simp at hr
    · split at hr
      · rcases List.mem_map.mp hr with ⟨e, he, rfl⟩
        exact scrape_album_page_emails_valid rd fetchAlbum url e he
      · split at hr
        · rcases List.mem_map.mp hr with ⟨e, he, rfl⟩
          exact (scrape_external_site_sound rd uj fetchSite _ e he).1
        · simp at hr
  · intro u e he
    exact (scrape_external_site_sound rd uj fetchSite u e he).2
  · intro st pg hfa hst hbe hme hext r hr
    have hs := scrape_album_page_ext rd fetchAlbum url st pg hfa hst hbe hme
    simp only [process_album, hs] at hr
    simp only [hext] at hr
    simp at hr
    rcases hr with ⟨e, he, rfl⟩
    exact (scrape_external_site_sound rd uj fetchSite _ e he).2
  · intro st pg hfa hst hbe
    have hs := scrape_album_page_bio rd fetchAlbum url st pg hfa hst hbe
    simp [process_album, hs, hbe]
    exact map_email_mk _ _ _ _
  · intro st pg hfa hst hbe hme
    have hs := scrape_album_page_mailto rd fetchAlbum url st pg hfa hst hbe hme
    simp [process_album, hs, hme]
    exact map_email_mk _ _ _ _

/-- Witness for C1 at the bio-email environment. -/
theorem c1_witness :
    is_valid_email "a@b.co" = true ∧
    (process_album rdFlat ujCat faBio fsNone "albumB").emails.map ContactRecord.email =
      extract_emails (bio_text_of pgBio) := by
  constructor
  · exact (c1_record_invariants rdFlat ujCat faBio fsNone "albumB").1
      { email := "a@b.co", name := "The Band", notes := "reach us a@b.co",
        source_url := "albumB" } (by decide)
  · exact (c1_record_invariants rdFlat ujCat faBio fsNone "albumB").2.2.2.1 200 pgBio
      (by decide) (by omega) (by decide)

/-! ### Claim C3: the contact-page stage -/

/-- Claim C3, as stated, is false on the code: with two qualifying contact
links where the fetch of the first raises, the `except: continue` resumes
the scan, the second contact page is fetched (two attempts are logged), and
the stage returns its email instead of the empty result the claim
requires after a failed first attempt. -/
theorem c3_counterexample :
    (scrape_external_site rdSite ujCat fsTwo "http://site.com").1 = ["info@site.com"] ∧
    (scrape_external_site rdSite ujCat fsTwo "http://site.com").2 =
      [.visitingExternal "http://site.com", .checkingContactPage,
       .foundContactPage "http://site.com/contact1",
       .foundContactPage "http://site.com/contact2",
       .foundContactTextEmails ["info@site.com"]] := by
  constructor <;> decide

/-- Claim C3 (amended): in the contact-page stage, anchors whose lowercased
text or href contain `contact` qualify; a qualifying candidate that does
not join to a URL starting with `http` is skipped silently; a qualifying
candidate whose fetch or parse raises is logged, the failure is swallowed,
and the scan continues with the next anchor; the first qualifying candidate
whose fetch succeeds ends the scan regardless of what it contains - the
remaining anchors are never consulted - and yields its filtered text
emails, else its filtered mailto emails, else nothing. -/
theorem c3_contact_scan_behavior (rd : String → String) (uj : String → String → String)
    (fs : String → Option SitePage) (wd base : String) (a : Anchor) (rest : List Anchor) :
    ((py_substr_in "contact" (py_lower a.text) ||
        py_substr_in "contact" (py_lower a.href)) = false →
      contact_scan rd uj fs wd base (a :: rest) = contact_scan rd uj fs wd base rest) ∧
    ((py_substr_in "contact" (py_lower a.text) ||
        py_substr_in "contact" (py_lower a.href)) = true →
      py_startswith (uj base a.href) "http" = false →
      contact_scan rd uj fs wd base (a :: rest) = contact_scan rd uj fs wd base rest) ∧
    ((py_substr_in "contact" (py_lower a.text) ||
        py_substr_in "contact" (py_lower a.href)) = true →
      py_startswith (uj base a.href) "http" = true →
      fs (uj base a.href) = none →
      contact_scan rd uj fs wd base (a :: rest) =
        ((contact_scan rd uj fs wd base rest).1,
         .foundContactPage (uj base a.href) :: (contact_scan rd uj fs wd base rest).2)) ∧
    (∀ cp : SitePage,
      (py_substr_in "contact" (py_lower a.text) ||
        py_substr_in "contact" (py_lower a.href)) = true →
      py_startswith (uj base a.href) "http" = true →
      fs (uj base a.href) = some cp →
      contact_scan rd uj fs wd base (a :: rest) = contact_scan rd uj fs wd base [a]) := by
  refine ⟨?_, ?_, ?_, ?_⟩
  · intro hq
    simp [contact_scan, hq]
  · intro hq hs
    simp [contact_scan, hq, hs]
  · intro hq hs hf
    simp [contact_scan, hq, hs, hf]
  · intro cp hq hs hf
    simp [contact_scan, hq, hs, hf]

/-- Witness for the amended C3: swallowed failure on the first candidate,
scan resumed with the rest. -/
theorem c3_witness :
    contact_scan rdSite ujCat fsTwo "site.com" "http://site.com"
        [⟨"/contact1", "Contact"⟩, ⟨"/contact2", "Contact"⟩] =
      ((contact_scan rdSite ujCat fsTwo "site.com" "http://site.com"
          [⟨"/contact2", "Contact"⟩]).1,
       .foundContactPage "http://site.com/contact1" ::
         (contact_scan rdSite ujCat fsTwo "site.com" "http://site.com"
           [⟨"/contact2", "Contact"⟩]).2) :=
  (c3_contact_scan_behavior rdSite ujCat fsTwo "site.com" "http://site.com"
    ⟨"/contact1", "Contact"⟩ [⟨"/contact2", "Contact"⟩]).2.2.1
    (by decide) (by decide) (by decide)
